import Mathlib

/-!
Verification model of the agent-replay trace engine.

The embedding mirrors the TypeScript sources:
  * `src/db/schema.ts`            — table shapes (rows of the four tables)
  * `src/services/trace-service.ts` (`ingestTrace`, `appendStep`, `createEval`)
  * `src/services/fork-service.ts`  (`forkTrace`)
  * `src/services/diff-service.ts`  (`diffTraces`)
  * `src/services/eval-service.ts`  (rubric scoring, `runAiEval`, `extractJson`,
                                     `estimateAiEvalCost`)
  * `src/services/guard-service.ts` (`matchesPolicy`, `testPolicies`)
  * `src/services/llm-client.ts`    (`COST_TABLE`, `estimateCost`)

Modelling conventions.
  * SQLite rows become Lean structures; a TEXT column holding JSON is kept as
    the persisted `String` (the code compares and copies these columns as
    text).  Host-language primitives (JSON.parse, RegExp, Date.now, nanoid)
    are abstracted: timestamps are threaded as a `now : String` argument,
    JSON parsing / regex compilation are function parameters, and the nanoid
    mint becomes a monotone counter in the store state, making the
    collision-freedom assumption of random ids explicit (ids are `Nat`).
  * JavaScript numbers are modelled as `Rat` (scores, costs) or `Nat`/`Int`
    (counts); `Math.round` becomes `jsRound` below.
  * A thrown exception becomes `Except.error` carrying the error kind of the
    spec's taxonomy; the store value is only returned on success, matching
    the code, which throws before or inside a transaction that then rolls
    back.
-/

namespace AgentReplay

/-- Trace status enumeration, CHECK-constrained in `agent_traces` (schema.ts). -/
inductive TraceStatus
  | running
  | completed
  | failed
  | timeout
deriving DecidableEq, Repr

/-- Error kinds of the spec's error taxonomy (spec §7) used by the services. -/
inductive ApError
  | not_found
  | invalid_state
  | invalid_input
  | parse
deriving DecidableEq, Repr

/-- Row of `agent_traces` (schema.ts lines 31-52).  JSON-text columns are kept
as the persisted strings; `id` and the parent link are minted `Nat` ids. -/
structure TraceRow where
  id : Nat
  agent_name : String
  agent_version : Option String
  trigger : String
  status : TraceStatus
  input : String
  output : Option String
  started_at : String
  ended_at : Option String
  total_duration_ms : Option Int
  total_tokens : Option Int
  total_cost_usd : Option Rat
  error : Option String
  tags : String
  metadata : String
  parent_trace_id : Option Nat
  forked_from_step : Option Nat
  created_at : String
deriving DecidableEq, Repr

/-- Row of `agent_trace_steps` (schema.ts lines 62-79). -/
structure StepRow where
  id : Nat
  trace_id : Nat
  step_number : Nat
  step_type : String
  name : String
  input : String
  output : Option String
  started_at : String
  ended_at : Option String
  duration_ms : Option Int
  tokens_used : Option Int
  model : Option String
  error : Option String
  metadata : String
deriving DecidableEq, Repr

/-- Row of `agent_trace_snapshots` (schema.ts lines 87-94). -/
structure SnapRow where
  id : Nat
  step_id : Nat
  context_window : String
  environment : String
  tool_state : String
  token_count : Int
deriving DecidableEq, Repr

/-- Row of `agent_trace_evals` (schema.ts lines 101-111). -/
structure EvalRow where
  id : Nat
  trace_id : Nat
  evaluator_type : String
  evaluator_name : String
  score : Rat
  passed : Bool
  details : String
  evaluated_at : String
deriving DecidableEq, Repr

/-- The embedded store: the four tables plus the id-mint counter (the model of
nanoid's collision-resistant generator — see the header comment). -/
structure DB where
  counter : Nat
  traces : List TraceRow
  steps : List StepRow
  snapshots : List SnapRow
  evals : List EvalRow
deriving DecidableEq, Repr

/-- The freshly opened store. -/
def emptyDB : DB :=
  { counter := 0, traces := [], steps := [], snapshots := [], evals := [] }

/-- Mint a fresh id (`generateId` in the services; the typed text prefix is
dropped, the random 12-char body becomes the next counter value). -/
def genId (db : DB) : Nat × DB :=
  (db.counter, { db with counter := db.counter + 1 })

/-- Exact-id lookup in `agent_traces` (`SELECT ... WHERE id = ?`). -/
def findTrace? (db : DB) (traceId : Nat) : Option TraceRow :=
  db.traces.find? (fun t => t.id = traceId)

/-- Snapshot lookup by owning step (`SELECT * FROM agent_trace_snapshots WHERE
step_id = ?` followed by `.get`, which yields the first matching row). -/
def findSnap (db : DB) (stepId : Nat) : Option SnapRow :=
  db.snapshots.find? (fun sn => sn.step_id = stepId)

/-- Model of `jsonStr` (trace-service.ts lines 26-30): `undefined`/`null`
become `"{}"`; a value already serialised passes through. -/
def jsonStr (v : Option String) : String :=
  v.getD ("\x7b\x7d")

/-- Caller-supplied snapshot payload (`IngestSnapshotInput`, types.ts). -/
structure IngestSnapshotInput where
  context_window : Option String
  environment : Option String
  tool_state : Option String
  token_count : Option Int
deriving DecidableEq, Repr

/-- Caller-supplied step payload (`IngestStepInput`, types.ts). -/
structure IngestStepInput where
  step_number : Nat
  step_type : String
  name : String
  input : Option String
  output : Option String
  started_at : Option String
  ended_at : Option String
  duration_ms : Option Int
  tokens_used : Option Int
  model : Option String
  error : Option String
  metadata : Option String
  snapshot : Option IngestSnapshotInput
deriving DecidableEq, Repr

/-- Caller-supplied trace payload (`IngestTraceInput`, types.ts).  Note: the
input type has no fork-linkage fields; `ingestTrace` writes NULL for both. -/
structure IngestTraceInput where
  agent_name : String
  agent_version : Option String
  trigger : Option String
  status : Option TraceStatus
  input : Option String
  output : Option String
  started_at : Option String
  ended_at : Option String
  total_duration_ms : Option Int
  total_tokens : Option Int
  total_cost_usd : Option Rat
  error : Option String
  tags : Option String
  metadata : Option String
  steps : List IngestStepInput
deriving DecidableEq, Repr

/-- Build the step row inserted by `appendStep` / the ingest loop
(trace-service.ts lines 168-188 and 240-260): identical column lists. -/
def mkStepRow (stepId traceId : Nat) (now : String) (inp : IngestStepInput) : StepRow :=
  { id := stepId
    trace_id := traceId
    step_number := inp.step_number
    step_type := inp.step_type
    name := inp.name
    input := jsonStr inp.input
    output := inp.output
    started_at := inp.started_at.getD now
    ended_at := inp.ended_at
    duration_ms := inp.duration_ms
    tokens_used := inp.tokens_used
    model := inp.model
    error := inp.error
    metadata := jsonStr inp.metadata }

/-- Build the snapshot row inserted for a step (trace-service.ts lines
190-204 and 262-276): fields default via `jsonStr`, `token_count ?? 0`. -/
def mkSnapRow (snapId stepId : Nat) (s : IngestSnapshotInput) : SnapRow :=
  { id := snapId
    step_id := stepId
    context_window := jsonStr s.context_window
    environment := jsonStr s.environment
    tool_state := jsonStr s.tool_state
    token_count := s.token_count.getD 0 }

/-- One iteration of `ingestTrace`'s step loop (trace-service.ts lines
166-205): mint a step id, insert the step row, and insert its snapshot row
when one is supplied. -/
def insertIngestStep (traceId : Nat) (now : String) (db : DB) (step : IngestStepInput) : DB :=
  let (stepId, db1) := genId db
  let db2 := { db1 with steps := db1.steps ++ [mkStepRow stepId traceId now step] }
  match step.snapshot with
  | none => db2
  | some s =>
    let (snapId, db3) := genId db2
    { db3 with snapshots := db3.snapshots ++ [mkSnapRow snapId stepId s] }

/-- Model of `ingestTrace` (trace-service.ts lines 126-213).  The status
default is `status ?? (ended_at ? completed : running)`; the fork-linkage
columns are hard-coded NULL; steps and their snapshots are inserted in
order inside the same transaction.  Returns the stored trace row re-read. -/
def ingestTrace (db : DB) (inp : IngestTraceInput) (now : String) : DB × TraceRow :=
  let (traceId, db1) := genId db
  let status := inp.status.getD (if inp.ended_at.isSome then .completed else .running)
  let row : TraceRow :=
    { id := traceId
      agent_name := inp.agent_name
      agent_version := inp.agent_version
      trigger := inp.trigger.getD ("manual")
      status := status
      input := jsonStr inp.input
      output := inp.output
      started_at := inp.started_at.getD now
      ended_at := inp.ended_at
      total_duration_ms := inp.total_duration_ms
      total_tokens := inp.total_tokens
      total_cost_usd := inp.total_cost_usd
      error := inp.error
      tags := inp.tags.getD ("[]")
      metadata := jsonStr inp.metadata
      parent_trace_id := none
      forked_from_step := none
      created_at := now }
  let db2 := { db1 with traces := db1.traces ++ [row] }
  (inp.steps.foldl (insertIngestStep traceId now) db2, row)

/-- Model of `appendStep` (trace-service.ts lines 217-284): look the trace up
by exact id, reject a missing trace (`not_found`) or a non-`running` status
(`invalid_state`) before any write, then insert the step row and, when
supplied, its snapshot row, returning the stored step. -/
def appendStep (db : DB) (traceId : Nat) (inp : IngestStepInput) (now : String) :
    Except ApError (DB × StepRow) :=
  match findTrace? db traceId with
  | none => .error .not_found
  | some tr =>
    if tr.status ≠ .running then .error .invalid_state
    else
      let (stepId, db1) := genId db
      let row := mkStepRow stepId traceId now inp
      let db2 := { db1 with steps := db1.steps ++ [row] }
      match inp.snapshot with
      | none => .ok (db2, row)
      | some s =>
        let (snapId, db3) := genId db2
        .ok ({ db3 with snapshots := db3.snapshots ++ [mkSnapRow snapId stepId s] }, row)

/-- Verdict payload for `createEval` (`CreateEvalInput`, types.ts). -/
structure CreateEvalInput where
  evaluator_type : String
  evaluator_name : String
  score : Rat
  passed : Bool
  details : Option String
deriving DecidableEq, Repr

/-- Model of `createEval` (trace-service.ts lines 478-506): mint an id and
insert the verdict row, returning it re-read. -/
def createEval (db : DB) (traceId : Nat) (inp : CreateEvalInput) (now : String) :
    DB × EvalRow :=
  let (evalId, db1) := genId db
  let row : EvalRow :=
    { id := evalId
      trace_id := traceId
      evaluator_type := inp.evaluator_type
      evaluator_name := inp.evaluator_name
      score := inp.score
      passed := inp.passed
      details := jsonStr inp.details
      evaluated_at := now }
  ({ db1 with evals := db1.evals ++ [row] }, row)

/-! ## Cost estimation (llm-client.ts, eval-service.ts) -/

/-- `COST_TABLE` (llm-client.ts lines 40-44), USD per 1M tokens as rationals. -/
def COST_TABLE : List (String × Rat × Rat) :=
  [("claude-haiku-4-5-20251001", 1, 5),
   ("gemini-2.0-flash", 1/10, 2/5),
   ("gpt-4o-mini", 3/20, 3/5)]

/-- Rate lookup used by `estimateCost` (`COST_TABLE[model]`). -/
def costRates (model : String) : Option (Rat × Rat) :=
  (COST_TABLE.find? (fun e => e.1 = model)).map (fun e => e.2)

/-- Model of `estimateCost` (llm-client.ts lines 78-86): unknown model yields
0, otherwise per-million-token rates applied to both directions. -/
def estimateCost (model : String) (inputTokens outputTokens : Rat) : Rat :=
  match costRates model with
  | none => 0
  | some costs => inputTokens / 1000000 * costs.1 + outputTokens / 1000000 * costs.2

/-- One breakdown entry of `estimateAiEvalCost`: preset name, estimated
tokens, estimated USD. -/
structure CostBreakdownEntry where
  preset : String
  estimated_tokens : Nat
  estimated_usd : Rat
deriving DecidableEq, Repr

/-- Model of `estimateAiEvalCost` (eval-service.ts lines 963-979).  The
summariser's `summary.estimated_tokens` is taken as the `summaryTokens`
argument; each preset contributes `summaryTokens + 200` input tokens and
1024 output tokens, and the total reduces the per-entry estimates. -/
def estimateAiEvalCost (summaryTokens : Nat) (presetNames : List String) (model : String) :
    Rat × List CostBreakdownEntry :=
  let breakdown := presetNames.map (fun name =>
    { preset := name
      estimated_tokens := summaryTokens + 200
      estimated_usd := estimateCost model (summaryTokens + 200) 1024 : CostBreakdownEntry })
  (breakdown.foldl (fun sum b => sum + b.estimated_usd) 0, breakdown)

/-! ## Diff engine (diff-service.ts) -/

/-- Field-level difference (`StepDiff`, types.ts).  The code stores
`safeParseJson` of the persisted text in `left_value`/`right_value`; parsing
is a host primitive, so the model keeps the text itself (`none` = SQL NULL). -/
structure StepDiff where
  step_number : Nat
  field : String
  left_value : Option String
  right_value : Option String
deriving DecidableEq, Repr

/-- One push site of `diffTraces`: `if (divergence_step === null)
divergence_step = stepNum; diffs.push(d)`. -/
def pushDiff (st : Option Nat × List StepDiff) (d : StepDiff) : Option Nat × List StepDiff :=
  (match st.1 with | none => some d.step_number | some v => some v, st.2 ++ [d])

/-- One aligned position of the diff loop (diff-service.ts lines 271-336):
both present compares `step_type`, `name`, `input`, `output` in that order
over the persisted text; one-sided positions emit `missing_right` /
`missing_left` carrying the step name. -/
def diffPair (st : Option Nat × List StepDiff) (pair : Option StepRow × Option StepRow) :
    Option Nat × List StepDiff :=
  match pair with
  | (some left, some right) =>
    let st := if left.step_type ≠ right.step_type then
      pushDiff st { step_number := left.step_number, field := "step_type",
                    left_value := some left.step_type, right_value := some right.step_type }
      else st
    let st := if left.name ≠ right.name then
      pushDiff st { step_number := left.step_number, field := "name",
                    left_value := some left.name, right_value := some right.name }
      else st
    let st := if left.input ≠ right.input then
      pushDiff st { step_number := left.step_number, field := "input",
                    left_value := some left.input, right_value := some right.input }
      else st
    if left.output ≠ right.output then
      pushDiff st { step_number := left.step_number, field := "output",
                    left_value := left.output, right_value := right.output }
      else st
  | (some left, none) =>
    pushDiff st { step_number := left.step_number, field := "missing_right",
                  left_value := some left.name, right_value := none }
  | (none, some right) =>
    pushDiff st { step_number := right.step_number, field := "missing_left",
                  left_value := none, right_value := some right.name }
  | (none, none) => st

/-- Positional alignment of the two step lists: the loop
`for i in 0 .. max(len L, len R) - 1` reading `L[i]` and `R[i]`. -/
def zipPad : List StepRow → List StepRow → List (Option StepRow × Option StepRow)
  | [], [] => []
  | l :: ls, [] => (some l, none) :: zipPad ls []
  | [], r :: rs => (none, some r) :: zipPad [] rs
  | l :: ls, r :: rs => (some l, some r) :: zipPad ls rs

/-- Ordered insertion helper realising the `ORDER BY step_number` clause. -/
def insertByStepNumber (s : StepRow) : List StepRow → List StepRow
  | [] => [s]
  | t :: ts =>
    if s.step_number ≤ t.step_number then s :: t :: ts else t :: insertByStepNumber s ts

/-- Steps of one trace ordered by step number (`SELECT * FROM
agent_trace_steps WHERE trace_id = ? ORDER BY step_number`). -/
def traceSteps (db : DB) (traceId : Nat) : List StepRow :=
  (db.steps.filter (fun s => s.trace_id = traceId)).foldr insertByStepNumber []

/-- Result of the diff engine (`TraceDiffResult`, types.ts). -/
structure TraceDiffResult where
  left_trace_id : Nat
  right_trace_id : Nat
  divergence_step : Option Nat
  left_step_count : Nat
  right_step_count : Nat
  diffs : List StepDiff
deriving DecidableEq, Repr

/-- Model of `diffTraces` (diff-service.ts lines 249-346). -/
def diffTraces (db : DB) (leftTraceId rightTraceId : Nat) : TraceDiffResult :=
  let leftSteps := traceSteps db leftTraceId
  let rightSteps := traceSteps db rightTraceId
  let st := (zipPad leftSteps rightSteps).foldl diffPair (none, [])
  { left_trace_id := leftTraceId
    right_trace_id := rightTraceId
    divergence_step := st.1
    left_step_count := leftSteps.length
    right_step_count := rightSteps.length
    diffs := st.2 }

/-- The four columns the diff engine compares, in order. -/
def stepCmpKey (s : StepRow) : String × String × String × Option String :=
  (s.step_type, s.name, s.input, s.output)

/-! ## Rubric evaluator scoring (eval-service.ts) -/

/-- JavaScript `Math.round` on a non-negative rational: `⌊x + 1/2⌋`. -/
def jsRound (x : Rat) : Int :=
  ⌊x + 1/2⌋

/-- Rounding to three decimal places: `Math.round(x * 1000) / 1000`
(eval-service.ts lines 601 and 678). -/
def round3 (x : Rat) : Rat :=
  (jsRound (x * 1000) : Rat) / 1000

/-- One evaluated criterion as accumulated by the scoring loops
(`criteriaResults` entries: name, score, weight, details). -/
structure CriterionResult where
  name : String
  score : Rat
  weight : Rat
  details : String
deriving DecidableEq, Repr

/-- Weighted-mean aggregation shared by `runEval` and `runCustomRubric`
(eval-service.ts lines 579-595 / 639-672): accumulate `Σ score·weight` and
`Σ weight` over the loop; the overall score is the quotient when the total
weight is positive, else 0. -/
def weightedOverall (rs : List CriterionResult) : Rat :=
  let weightedSum := rs.foldl (fun acc r => acc + r.score * r.weight) 0
  let totalWeight := rs.foldl (fun acc r => acc + r.weight) 0
  if totalWeight > 0 then weightedSum / totalWeight else 0

/-- Total weight accumulated by the scoring loops. -/
def totalWeight (rs : List CriterionResult) : Rat :=
  rs.foldl (fun acc r => acc + r.weight) 0

/-- Verdict head computed before storage (eval-service.ts lines 595-601 and
672-678): the stored score is the rounded overall, while `passed` compares
the UNROUNDED overall against the threshold. -/
def rubricVerdict (threshold : Rat) (rs : List CriterionResult) : Rat × Bool :=
  let overallScore := weightedOverall rs
  (round3 overallScore, decide (overallScore ≥ threshold))

/-- Detail text stored with a rubric verdict; the details JSON (threshold and
per-criterion results) is not modelled field-by-field — no claim depends on
its shape. -/
def rubricDetails (threshold : Rat) (rs : List CriterionResult) : String :=
  toString threshold ++ "|" ++ String.intercalate ("|") (rs.map (fun r => r.name ++ "=" ++ r.details))

/-- Verdict storage shared by both rubric paths (eval-service.ts lines
598-607 and 675-684): persist via `createEval` with the rounded score and
the pre-rounding pass flag. -/
def storeRubricVerdict (db : DB) (traceId : Nat) (evalType evalName : String)
    (threshold : Rat) (rs : List CriterionResult) (now : String) : DB × EvalRow :=
  createEval db traceId
    { evaluator_type := evalType
      evaluator_name := evalName
      score := (rubricVerdict threshold rs).1
      passed := (rubricVerdict threshold rs).2
      details := some (rubricDetails threshold rs) } now

/-- Single-quote character as a string, written via its code point. -/
def sq : String :=
  String.singleton (Char.ofNat 39)

/-- Custom-rubric criterion input: `{name, pattern, expected, weight?}`. -/
structure RubricCriterion where
  name : String
  pattern : String
  expected : Bool
  weight : Option Rat
deriving DecidableEq, Repr

/-- Evaluation of one custom-rubric criterion (eval-service.ts lines
643-670): an invalid pattern (regex compilation — the host `safeRegex` — is
the `compile` parameter, `none` = invalid) scores 0 with its weight still
counted; otherwise score 1.0 iff the case-insensitive test equals
`expected`. -/
def customCriterionResult (compile : String → Option (String → Bool)) (fullText : String)
    (c : RubricCriterion) : CriterionResult :=
  let weight := c.weight.getD 1
  match compile c.pattern with
  | none =>
    { name := c.name, score := 0, weight := weight,
      details := "Invalid regex pattern " ++ sq ++ c.pattern ++ sq }
  | some test =>
    let didMatch := test fullText
    { name := c.name
      score := if didMatch = c.expected then 1 else 0
      weight := weight
      details := (if didMatch then "Pattern " ++ sq ++ c.pattern ++ sq ++ " found"
                  else "Pattern " ++ sq ++ c.pattern ++ sq ++ " not found") }

/-- Model of `runCustomRubric` (eval-service.ts lines 614-685).  `fullText`
stands for `JSON(input) + JSON(output ?? ") + Σ JSON(step.output)` of the
resolved trace (host serialisation); threshold defaults to 0.7 and each
missing weight to 1.  Fails `not_found` for a missing trace. -/
def runCustomRubric (db : DB) (traceId : Nat) (compile : String → Option (String → Bool))
    (fullText : String) (rubricName : String) (threshold : Option Rat)
    (criteria : List RubricCriterion) (now : String) : Except ApError (DB × EvalRow) :=
  match findTrace? db traceId with
  | none => .error .not_found
  | some _ =>
    .ok (storeRubricVerdict db traceId ("rubric") rubricName (threshold.getD (7/10))
          (criteria.map (customCriterionResult compile fullText)) now)

/-! ## Guardrail matcher (guard-service.ts) -/

/-- Match pattern of a guardrail policy: the five keys the matcher
recognises, each optional; values are modelled as strings (the shape the
policies store). -/
structure MatchPattern where
  step_type : Option String
  name_contains : Option String
  name_regex : Option String
  input_contains : Option String
  output_contains : Option String
deriving DecidableEq, Repr

/-- JavaScript truthiness of a pattern value (`if (pattern.key) ...`): a
missing key or an empty string is falsy and skips that check. -/
def jsTruthy : Option String → Option String
  | some "" => none
  | o => o

/-- Substring test (`String.prototype.includes`): the empty needle always
matches; otherwise splitting on the needle yields at least two parts. -/
def strContains (hay needle : String) : Bool :=
  needle.isEmpty || (hay.splitOn needle).length ≥ 2

/-- Output text the matcher searches: `JSON.stringify(step.output ?? ")`; a
NULL output serialises to the two quote characters of an empty JSON
string. -/
def stepOutputText (s : StepRow) : String :=
  match s.output with
  | some t => t
  | none => "\"\""

/-- Check of the `step_type` key (guard-service.ts lines 315-320): exact
equality, contributing `step_type=<type>` to the reasons. -/
def stepTypeCheck (step : StepRow) (pat : MatchPattern) : Option (List String) :=
  match jsTruthy pat.step_type with
  | none => some []
  | some t =>
    if step.step_type = t then some ["step_type=" ++ step.step_type] else none

/-- Check of the `name_contains` key (lines 323-329): case-insensitive
substring of the step name. -/
def nameContainsCheck (step : StepRow) (pat : MatchPattern) : Option (List String) :=
  match jsTruthy pat.name_contains with
  | none => some []
  | some n =>
    if strContains step.name.toLower n.toLower
    then some ["name contains " ++ sq ++ n ++ sq]
    else none

/-- Check of the `name_regex` key (lines 332-338): compile with `safeRegex`
(the host regex engine is the `compile` parameter; `none` = invalid
pattern, which fails the match without raising). -/
def nameRegexCheck (compile : String → Option (String → Bool)) (step : StepRow)
    (pat : MatchPattern) : Option (List String) :=
  match jsTruthy pat.name_regex with
  | none => some []
  | some rx =>
    match compile rx with
    | none => none
    | some test =>
      if test step.name then some ["name matches /" ++ rx ++ "/"] else none

/-- Check of the `input_contains` key (lines 341-348): case-insensitive
substring of the serialised step input. -/
def inputContainsCheck (step : StepRow) (pat : MatchPattern) : Option (List String) :=
  match jsTruthy pat.input_contains with
  | none => some []
  | some n =>
    if strContains step.input.toLower n.toLower
    then some ["input contains " ++ sq ++ n ++ sq]
    else none

/-- Check of the `output_contains` key (lines 351-358): case-insensitive
substring of the serialised step output. -/
def outputContainsCheck (step : StepRow) (pat : MatchPattern) : Option (List String) :=
  match jsTruthy pat.output_contains with
  | none => some []
  | some n =>
    if strContains (stepOutputText step).toLower n.toLower
    then some ["output contains " ++ sq ++ n ++ sq]
    else none

/-- Model of `matchesPolicy` (guard-service.ts lines 310-366): a conjunction
over the present (truthy) keys — any failing check returns no match, zero
present keys match nothing, and a match returns the comma-joined reasons. -/
def matchesPolicy (compile : String → Option (String → Bool)) (step : StepRow)
    (pat : MatchPattern) : Option String :=
  match stepTypeCheck step pat with
  | none => none
  | some r1 =>
    match nameContainsCheck step pat with
    | none => none
    | some r2 =>
      match nameRegexCheck compile step pat with
      | none => none
      | some r3 =>
        match inputContainsCheck step pat with
        | none => none
        | some r4 =>
          match outputContainsCheck step pat with
          | none => none
          | some r5 =>
            let reasons := r1 ++ r2 ++ r3 ++ r4 ++ r5
            if reasons.isEmpty then none
            else some (String.intercalate (", ") reasons)

/-- Descriptions of the keys that match the step, in the matcher's test
order (used to state what a returned reason is made of). -/
def matchedDescriptions (compile : String → Option (String → Bool)) (step : StepRow)
    (pat : MatchPattern) : List String :=
  (stepTypeCheck step pat).getD [] ++ (nameContainsCheck step pat).getD [] ++
  (nameRegexCheck compile step pat).getD [] ++ (inputContainsCheck step pat).getD [] ++
  (outputContainsCheck step pat).getD []

/-- Row of `guardrail_policies` (schema.ts lines 119-132), restricted to the
fields the matcher consumes. -/
structure PolicyRow where
  id : Nat
  name : String
  action : String
  priority : Int
  enabled : Bool
  match_pattern : MatchPattern
deriving DecidableEq, Repr

/-- Ordered insertion realising `ORDER BY priority DESC` for policies. -/
def insertByPriorityDesc (p : PolicyRow) : List PolicyRow → List PolicyRow
  | [] => [p]
  | q :: qs =>
    if p.priority ≥ q.priority then p :: q :: qs else q :: insertByPriorityDesc p qs

/-- Model of `testPolicies` (guard-service.ts lines 265-306): enabled
policies ordered by priority are tested against every step of the trace in
step order; a trace with no steps fails `not_found`.  The policy table is
passed explicitly. -/
def testPolicies (db : DB) (policies : List PolicyRow)
    (compile : String → Option (String → Bool)) (traceId : Nat) :
    Except ApError (List (StepRow × List (PolicyRow × String))) :=
  let steps := traceSteps db traceId
  if steps.isEmpty then .error .not_found
  else
    let enabled := (policies.filter (fun p => p.enabled)).foldr insertByPriorityDesc []
    .ok (steps.map (fun st =>
      (st, enabled.filterMap (fun p =>
        (matchesPolicy compile st p.match_pattern).map (fun r => (p, r))))))

/-! ## JSON extraction (eval-service.ts extractJson) -/

/-- Opening-brace character, written via its code point. -/
def openBrace : Char :=
  Char.ofNat 123

/-- Closing-brace character, written via its code point. -/
def closeBrace : Char :=
  Char.ofNat 125

/-- Index of the first occurrence of a character (`String.indexOf`). -/
def idxOfChar (s : String) (c : Char) : Option Nat :=
  s.toList.findIdx? (fun d => d = c)

/-- Index of the last occurrence of a character (`String.lastIndexOf`). -/
def lastIdxOfChar (s : String) (c : Char) : Option Nat :=
  match s.toList.reverse.findIdx? (fun d => d = c) with
  | none => none
  | some i => some (s.toList.length - 1 - i)

/-- Character slice `text.slice(a, b)`. -/
def strSlice (s : String) (a b : Nat) : String :=
  String.mk ((s.toList.drop a).take (b - a))

/-- Third stage of `extractJson` (eval-service.ts lines 1004-1013): locate
the first opening and last closing brace and parse the slice when the
former strictly precedes the latter. -/
def extractJsonBraces {J : Type} (parse : String → Option J) (text : String) :
    Except ApError J :=
  match idxOfChar text openBrace, lastIdxOfChar text closeBrace with
  | some braceStart, some braceEnd =>
    if braceStart < braceEnd then
      match parse (strSlice text braceStart (braceEnd + 1)) with
      | some v => .ok v
      | none => .error .parse
    else .error .parse
  | some _, none => .error .parse
  | none, _ => .error .parse

/-- Model of `extractJson` (eval-service.ts lines 986-1016).  `parse` is the
host `JSON.parse` (`none` = throw); `fence` is the host regex capture of a
fenced code block with or without a `json` language tag (`none` = no
match).  Stage 1 parses the trimmed input; stage 2 parses the trimmed fence
capture; stage 3 is the brace slice; then a `parse` failure is thrown. -/
def extractJson {J : Type} (parse : String → Option J) (fence : String → Option String)
    (text : String) : Except ApError J :=
  match parse text.trim with
  | some v => .ok v
  | none =>
    match fence text with
    | some inner =>
      match parse inner.trim with
      | some v => .ok v
      | none => extractJsonBraces parse text
    | none => extractJsonBraces parse text

/-- Stage-3 value as an optional result, for stating the staging law. -/
def braceSliceParse {J : Type} (parse : String → Option J) (text : String) : Option J :=
  match idxOfChar text openBrace, lastIdxOfChar text closeBrace with
  | some braceStart, some braceEnd =>
    if braceStart < braceEnd then parse (strSlice text braceStart (braceEnd + 1)) else none
  | some _, none => none
  | none, _ => none

/-! ## Judge evaluator (eval-service.ts runAiEval) -/

/-- Evaluation context handed to preset predicates (`EvalContext`,
eval-service.ts lines 342-347): trace input/output text, steps, error. -/
structure EvalContext where
  input : String
  output : Option String
  steps : List StepRow
  error : Option String
deriving DecidableEq, Repr

/-- Response of the LanguageJudge capability (`LlmResponse`,
llm-client.ts lines 16-24). -/
structure LlmResponse where
  text : String
  input_tokens : Nat
  output_tokens : Nat
  model : String
  provider : String
  cost_estimate_usd : Rat
  latency_ms : Nat
deriving DecidableEq, Repr

/-- Parsed judge verdict (the result shape of `parse_response`). -/
structure ParsedVerdict where
  score : Rat
  passed : Bool
  details : String
deriving DecidableEq, Repr

/-- AI judge preset (`AiEvalPreset`, eval-service.ts lines 689-697); the
parser returns `none` to model a thrown parse error. -/
structure AiEvalPreset where
  name : String
  description : String
  system_prompt : String
  user_prompt_template : String → String
  parse_response : String → Option ParsedVerdict
  applicable : Option (EvalContext → Bool)
  threshold : Rat

/-- Applicability predicate of the `ai-root-cause` preset (eval-service.ts
line 705): the trace has an error, or some step is of type `error`. -/
def aiRootCauseApplicable (ctx : EvalContext) : Bool :=
  ctx.error.isSome || ctx.steps.any (fun s => s.step_type == "error")

/-- Evaluation context of a resolved trace (built by `runAiEval` from the
`getTrace` result). -/
def getTraceCtx (db : DB) (traceId : Nat) : Option EvalContext :=
  (findTrace? db traceId).map (fun tr =>
    { input := tr.input, output := tr.output,
      steps := traceSteps db traceId, error := tr.error })

/-- Details of the skip verdict:
`{skipped: true, reason: "Not applicable to this trace"}`. -/
def skipDetailsText : String :=
  "\x7b\"skipped\":true,\"reason\":\"Not applicable to this trace\"\x7d"

/-- Details of the parse-failure verdict (`parse_error: true` with the first
2000 characters of the raw response). -/
def parseErrorDetailsText (responseText : String) : String :=
  "\x7b\"parse_error\":true,\"raw_response\":\"" ++ responseText.take 2000 ++ "\"\x7d"

/-- Enrichment of the verdict details with the judge-call metadata
(eval-service.ts lines 945-950); the JS object mutation is modelled as a
text append. -/
def augmentLlmMeta (details : String) (r : LlmResponse) : String :=
  details ++ "|llm_model=" ++ r.model ++ "|llm_provider=" ++ r.provider ++
  "|input_tokens=" ++ toString r.input_tokens ++
  "|output_tokens=" ++ toString r.output_tokens ++
  "|cost_usd=" ++ toString r.cost_estimate_usd.num ++ "/" ++ toString r.cost_estimate_usd.den ++
  "|latency_ms=" ++ toString r.latency_ms

/-- Model of `runAiEval` (eval-service.ts lines 881-959).  The summariser's
output text is the `summaryText` parameter and the LanguageJudge transport
is the `judge` parameter (system prompt → user prompt → response).  A
missing trace fails `not_found`; a preset whose `applicable` predicate
rejects the trace stores and returns the skip verdict without consulting
the judge; otherwise the judge response is parsed (parse failure producing
the 0-score verdict), enriched with call metadata, and stored. -/
def runAiEval (db : DB) (traceId : Nat) (preset : AiEvalPreset) (summaryText : String)
    (judge : String → String → LlmResponse) (now : String) :
    Except ApError (DB × EvalRow) :=
  match getTraceCtx db traceId with
  | none => .error .not_found
  | some ctx =>
    let skip : Bool :=
      match preset.applicable with
      | some app => !(app ctx)
      | none => false
    if skip then
      .ok (createEval db traceId
        { evaluator_type := "llm_judge", evaluator_name := preset.name,
          score := 1, passed := true, details := some skipDetailsText } now)
    else
      let userPrompt := preset.user_prompt_template summaryText
      let response := judge preset.system_prompt userPrompt
      let parsed :=
        match preset.parse_response response.text with
        | some p => p
        | none =>
          { score := 0, passed := false,
            details := parseErrorDetailsText response.text }
      let details := augmentLlmMeta parsed.details response
      .ok (createEval db traceId
        { evaluator_type := "llm_judge", evaluator_name := preset.name,
          score := parsed.score, passed := parsed.passed, details := some details } now)

/-! ## Fork engine (fork-service.ts) -/

/-- Result of a fork (`ForkResult`, types.ts). -/
structure ForkResult where
  original_trace_id : Nat
  forked_trace_id : Nat
  forked_from_step : Nat
  steps_copied : Nat
deriving DecidableEq, Repr

/-- Maximum step number of a trace (`SELECT MAX(step_number) ...`); `none`
when the trace has no steps. -/
def maxStepNumber (db : DB) (traceId : Nat) : Option Nat :=
  (db.steps.filter (fun s => s.trace_id = traceId)).foldl
    (fun acc s =>
      match acc with
      | none => some s.step_number
      | some m => some (max m s.step_number)) none

/-- Fork metadata `{forked_from: parent, forked_at_step: k}` as stored text
(ids are the model's minted numbers). -/
def forkMetadata (parentId k : Nat) : String :=
  "\x7b\"forked_from\":" ++ toString parentId ++ ",\"forked_at_step\":" ++ toString k ++ "\x7d"

/-- Parent steps copied by the fork (`SELECT ... WHERE trace_id = ? AND
step_number <= ? ORDER BY step_number`). -/
def stepsUpTo (db : DB) (traceId fromStep : Nat) : List StepRow :=
  (db.steps.filter (fun s => s.trace_id = traceId && s.step_number ≤ fromStep)).foldr
    insertByStepNumber []

/-- One iteration of the fork copy loop (fork-service.ts lines 92-144): mint
a fresh step id and insert the copied row under the forked trace; when the
parent step owns a snapshot, copy it with a fresh id, substituting
`modifiedContext` for the `environment` field WHENEVER it was supplied (the
substitution is not restricted to the fork-point step); context window,
tool state and token count carry over. -/
def forkCopyStep (forkedId : Nat) (modifiedContext : Option String) (db : DB)
    (step : StepRow) : DB :=
  let (newStepId, db1) := genId db
  let db2 := { db1 with
    steps := db1.steps ++ [{ step with id := newStepId, trace_id := forkedId }] }
  match findSnap db2 step.id with
  | none => db2
  | some snap =>
    let (newSnapId, db3) := genId db2
    let environment := modifiedContext.getD snap.environment
    { db3 with snapshots := db3.snapshots ++
      [{ id := newSnapId, step_id := newStepId, context_window := snap.context_window,
         environment := environment, tool_state := snap.tool_state,
         token_count := snap.token_count }] }

/-- The trace row inserted for a fork (fork-service.ts lines 52-80): the
parent's agent name, version and tags, trigger `manual`, status `running`,
input overridden when `modifiedInput` is supplied, fork metadata, and both
linkage columns set. -/
def mkForkedTrace (forkedId traceId fromStep : Nat) (modifiedInput : Option String)
    (original : TraceRow) (now : String) : TraceRow :=
  { id := forkedId
    agent_name := original.agent_name
    agent_version := original.agent_version
    trigger := "manual"
    status := .running
    input := modifiedInput.getD original.input
    output := none
    started_at := now
    ended_at := none
    total_duration_ms := none
    total_tokens := none
    total_cost_usd := none
    error := none
    tags := original.tags
    metadata := forkMetadata traceId fromStep
    parent_trace_id := some traceId
    forked_from_step := some fromStep
    created_at := now }

/-- Model of `forkTrace` (fork-service.ts lines 17-155): validate
`fromStep ≥ 1`, the parent's existence, and `fromStep ≤ max(step_number)`;
insert the forked trace (status `running`, parent linkage set, input
overridden when `modifiedInput` is supplied); copy the parent's steps up to
`fromStep` with their snapshots. -/
def forkTrace (db : DB) (traceId fromStep : Nat)
    (modifiedInput modifiedContext : Option String) (now : String) :
    Except ApError (DB × ForkResult) :=
  if fromStep < 1 then .error .invalid_input
  else
    match findTrace? db traceId with
    | none => .error .not_found
    | some original =>
      match maxStepNumber db traceId with
      | none => .error .invalid_state
      | some maxStep =>
        if fromStep > maxStep then .error .invalid_state
        else
          let (forkedId, db1) := genId db
          let forked := mkForkedTrace forkedId traceId fromStep modifiedInput original now
          let db2 := { db1 with traces := db1.traces ++ [forked] }
          let originalSteps := stepsUpTo db2 traceId fromStep
          let db3 := originalSteps.foldl (forkCopyStep forkedId modifiedContext) db2
          .ok (db3,
            { original_trace_id := traceId, forked_trace_id := forkedId,
              forked_from_step := fromStep, steps_copied := originalSteps.length })

/-! ## Reachability and store invariants -/

/-- Well-formedness maintained by the write operations: ids referenced by
steps and snapshots are below the mint counter, and no two snapshot rows
share an owning step id. -/
structure WF (db : DB) : Prop where
  steps_lt : ∀ s ∈ db.steps, s.id < db.counter
  snaps_lt : ∀ sn ∈ db.snapshots, sn.step_id < db.counter
  snaps_nodup : (db.snapshots.map (fun sn => sn.step_id)).Nodup

/-- Stores reachable from a fresh database through the three write
protocols the invariant claims quantify over: ingest, append, fork. -/
inductive Reachable : DB → Prop
  | init : Reachable emptyDB
  | ingest (db : DB) (inp : IngestTraceInput) (now : String) :
      Reachable db → Reachable (ingestTrace db inp now).1
  | append (db db' : DB) (traceId : Nat) (inp : IngestStepInput) (now : String)
      (row : StepRow) :
      Reachable db → appendStep db traceId inp now = .ok (db', row) → Reachable db'
  | fork (db db' : DB) (traceId fromStep : Nat) (mi mc : Option String) (now : String)
      (res : ForkResult) :
      Reachable db → forkTrace db traceId fromStep mi mc now = .ok (db', res) →
      Reachable db'

/-- Carry-over property of one snapshot row created by the fork copy loop
over the parent-step list `S`: its environment is the substituted context
when one was supplied (else the parent snapshot's), and context window,
tool state and token count come from the parent snapshot of a step of
`S`. -/
def CopiedSnapOK (db0 : DB) (S : List StepRow) (mc : Option String) (sn' : SnapRow) : Prop :=
  ∃ s ∈ S, ∃ sn, findSnap db0 s.id = some sn ∧
    sn'.environment = mc.getD sn.environment ∧
    sn'.context_window = sn.context_window ∧
    sn'.tool_state = sn.tool_state ∧
    sn'.token_count = sn.token_count

/-! ## Concrete fixtures used by witnesses and counterexamples -/

/-- Minimal trace payload used by concrete witnesses. -/
def exTraceInput : IngestTraceInput :=
  { agent_name := "a", agent_version := none, trigger := none, status := none,
    input := none, output := none, started_at := none, ended_at := none,
    total_duration_ms := none, total_tokens := none, total_cost_usd := none,
    error := none, tags := none, metadata := none, steps := [] }

/-- Minimal step payload used by concrete witnesses. -/
def exStepInput : IngestStepInput :=
  { step_number := 1, step_type := "thought", name := "think", input := none,
    output := none, started_at := none, ended_at := none, duration_ms := none,
    tokens_used := none, model := none, error := none, metadata := none,
    snapshot := none }

/-- Store holding one freshly ingested running trace, for concrete witnesses. -/
def exDb1 : DB :=
  (ingestTrace emptyDB exTraceInput ("T")).1

/-- Step payload number 1 with a snapshot, for multi-step fixtures. -/
def exStepSnap1 : IngestStepInput :=
  { exStepInput with
    step_number := 1
    name := "think"
    snapshot := some
      { context_window := none, environment := some ("\x7b\"e\":1\x7d"),
        tool_state := none, token_count := some 100 } }

/-- Step payload number 2 with a snapshot, for multi-step fixtures. -/
def exStepSnap2 : IngestStepInput :=
  { exStepInput with
    step_number := 2
    step_type := "tool_call"
    name := "call"
    snapshot := some
      { context_window := none, environment := some ("\x7b\"e\":2\x7d"),
        tool_state := none, token_count := some 300 } }

/-- Trace payload carrying the two snapshot-bearing steps. -/
def exTraceInputSteps : IngestTraceInput :=
  { exTraceInput with steps := [exStepSnap1, exStepSnap2] }

/-- Store with one two-step trace (id 0), both steps carrying snapshots. -/
def exDb2 : DB :=
  (ingestTrace emptyDB exTraceInputSteps ("T")).1

/-- Store with two content-identical two-step traces (ids 0 and 5). -/
def exDb3 : DB :=
  (ingestTrace exDb2 exTraceInputSteps ("T")).1

/-- Regex-compilation oracle for the custom-rubric counterexample: pattern
`x` matches every input, any other pattern matches nothing. -/
def c2Compile : String → Option (String → Bool) :=
  fun p => some (fun _ => p == "x")

/-- Custom rubric with weights 6999 and 3001 whose weighted mean lands at
0.6999, just below the default threshold but rounding up to 0.7. -/
def c2Criteria : List RubricCriterion :=
  [{ name := "c1", pattern := "x", expected := true, weight := some 6999 },
   { name := "c2", pattern := "y", expected := true, weight := some 3001 }]

/-- Concrete `runCustomRubric` execution for the C2 counterexample. -/
def c2Run : Except ApError (DB × EvalRow) :=
  runCustomRubric exDb1 0 c2Compile ("t") ("custom") none c2Criteria ("T")

/-- Pattern with none of the five recognised keys. -/
def c6EmptyPat : MatchPattern :=
  { step_type := none, name_contains := none, name_regex := none,
    input_contains := none, output_contains := none }

/-- Pattern whose `name_regex` is present (an unclosed character class,
invalid in the host regex syntax). -/
def c6RegexPat : MatchPattern :=
  { c6EmptyPat with name_regex := some "[" }

/-- Pattern matching on `step_type` alone. -/
def c6TypePat : MatchPattern :=
  { c6EmptyPat with step_type := some "tool_call" }

/-- Concrete tool-call step for the matcher witnesses. -/
def c6Step : StepRow :=
  { id := 0, trace_id := 0, step_number := 1, step_type := "tool_call",
    name := "call", input := "\x7b\x7d", output := none, started_at := "T",
    ended_at := none, duration_ms := none, tokens_used := none, model := none,
    error := none, metadata := "\x7b\x7d" }

/-- Regex oracle rejecting every pattern as invalid. -/
def c6NoCompile : String → Option (String → Bool) :=
  fun _ => none

/-- Judge preset fixture: the applicability predicate of `ai-root-cause`
with inert prompts and parser (the skip path consults neither). -/
def c7Preset : AiEvalPreset :=
  { name := "ai-root-cause", description := "root cause analysis",
    system_prompt := "sys", user_prompt_template := fun s => s,
    parse_response := fun _ => none,
    applicable := some aiRootCauseApplicable, threshold := 1/2 }

/-- Inert judge fixture. -/
def c7Judge : String → String → LlmResponse :=
  fun _ _ =>
    { text := "", input_tokens := 0, output_tokens := 0, model := "m",
      provider := "p", cost_estimate_usd := 0, latency_ms := 0 }

/-- Context of the C7 witness trace: no error and no steps, so the
`ai-root-cause` predicate rejects it. -/
def c7Ctx : EvalContext :=
  { input := "\x7b\x7d", output := none, steps := [], error := none }

/-- Concrete fork of the two-snapshot trace at step 2 with a modified
environment, for the C1 counterexample. -/
def c1Run : Except ApError (DB × ForkResult) :=
  forkTrace exDb2 0 2 none (some ("E")) ("T")

/-- Store after the C1 fork. -/
def c1ForkDb : DB :=
  match c1Run with
  | .ok p => p.1
  | .error _ => emptyDB

/-- Fork result of the C1 fork. -/
def c1ForkRes : ForkResult :=
  match c1Run with
  | .ok p => p.2
  | .error _ =>
    { original_trace_id := 0, forked_trace_id := 0, forked_from_step := 0,
      steps_copied := 0 }

end AgentReplay

namespace AgentReplay

/-! ## Theorems -/

/-- Claim C3: `appendStep` succeeds exactly on existing `running` traces — a
missing trace fails with `not_found`; a trace in status `completed`, `failed`
or `timeout` fails with `invalid_state` (no write happens, the error result
carries no store); and on every running trace it inserts the step row (plus
its snapshot row when supplied) and returns the stored step. -/
theorem appendStep_state_gating (db : DB) (traceId : Nat) (inp : IngestStepInput) (now : String) :
    (findTrace? db traceId = none → appendStep db traceId inp now = .error .not_found) ∧
    (∀ tr, findTrace? db traceId = some tr →
      (tr.status = .completed ∨ tr.status = .failed ∨ tr.status = .timeout) →
      appendStep db traceId inp now = .error .invalid_state) ∧
    (∀ tr, findTrace? db traceId = some tr → tr.status = .running →
      ∃ db' row, appendStep db traceId inp now = .ok (db', row) ∧
        row = mkStepRow db.counter traceId now inp ∧
        db'.steps = db.steps ++ [row] ∧
        db'.traces = db.traces ∧
        db'.evals = db.evals ∧
        (inp.snapshot = none → db'.snapshots = db.snapshots) ∧
        (∀ s, inp.snapshot = some s →
          db'.snapshots = db.snapshots ++ [mkSnapRow (db.counter + 1) row.id s])) := by
  refine ⟨?_, ?_, ?_⟩
  · intro h
    simp [appendStep, h]
  · intro tr htr hst
    have hne : tr.status ≠ .running := by
      rcases hst with h | h | h <;> simp [h]
    simp [appendStep, htr, hne]
  · intro tr htr hst
    rcases hsnap : inp.snapshot with _ | s
    · let row := mkStepRow db.counter traceId now inp
      let db' : DB := { db with counter := db.counter + 1, steps := db.steps ++ [row] }
      refine ⟨db', row, ?_, rfl, rfl, rfl, rfl,
              fun _ => rfl, fun s' hs' => by cases hs'⟩
      simp [appendStep, htr, hst, hsnap, genId, db', row]
    · let row := mkStepRow db.counter traceId now inp
      let snap := mkSnapRow (db.counter + 1) db.counter s
      let db' : DB := { db with counter := db.counter + 2, steps := db.steps ++ [row], snapshots := db.snapshots ++ [snap] }
      refine ⟨db', row, ?_, rfl, rfl, rfl, rfl, ?_, ?_⟩
      · simp [appendStep, htr, hst, hsnap, genId, db', row, snap]
      · intro h
        cases h
      · intro s' hs'
        cases hs'
        rfl

/-- Witness for `appendStep_state_gating` at a concrete running trace. -/
theorem appendStep_state_gating_witness :
    ∃ db' row, appendStep exDb1 0 exStepInput ("T") = .ok (db', row) ∧
      row = mkStepRow exDb1.counter 0 ("T") exStepInput ∧
      db'.steps = exDb1.steps ++ [row] ∧
      db'.traces = exDb1.traces ∧
      db'.evals = exDb1.evals ∧
      (exStepInput.snapshot = none → db'.snapshots = exDb1.snapshots) ∧
      (∀ s, exStepInput.snapshot = some s →
        db'.snapshots = exDb1.snapshots ++ [mkSnapRow (exDb1.counter + 1) row.id s]) :=
  (appendStep_state_gating exDb1 0 exStepInput ("T")).2.2
    ((ingestTrace emptyDB exTraceInput ("T")).2) (by decide) (by decide)

/-- Claim C10: a model string absent from `COST_TABLE` estimates to cost 0 for
all token counts, and consequently `estimateAiEvalCost` over such a model
returns 0 in every breakdown entry and a 0 total. -/
theorem estimateCost_unknown_model_zero (model : String) :
    costRates model = none →
    (∀ it ot : Rat, estimateCost model it ot = 0) ∧
    (∀ (summaryTokens : Nat) (presetNames : List String),
      (∀ b ∈ (estimateAiEvalCost summaryTokens presetNames model).2, b.estimated_usd = 0) ∧
      (estimateAiEvalCost summaryTokens presetNames model).1 = 0) := by
  intro h
  have hz : ∀ it ot : Rat, estimateCost model it ot = 0 := by
    intro it ot
    simp [estimateCost, h]
  refine ⟨hz, fun summaryTokens presetNames => ⟨?_, ?_⟩⟩
  · intro b hb
    simp only [estimateAiEvalCost, List.mem_map] at hb
    obtain ⟨name, _, rfl⟩ := hb
    exact hz _ _
  · simp only [estimateAiEvalCost]
    induction presetNames with
    | nil => rfl
    | cons n ns ih =>
      simp only [List.map_cons, List.foldl_cons, hz, add_zero, zero_add] at ih ⊢
      exact ih

/-- The diff fold is the identity when both step lists agree on the four
compared columns position by position. -/
theorem diffFold_id_of_cmpKeys (L R : List StepRow)
    (h : L.map stepCmpKey = R.map stepCmpKey) :
    ∀ st, (zipPad L R).foldl diffPair st = st := by
  induction L generalizing R with
  | nil =>
    cases R with
    | nil => intro st; simp [zipPad]
    | cons r rs => simp at h
  | cons l ls ih =>
    cases R with
    | nil => simp at h
    | cons r rs =>
      simp only [List.map_cons, List.cons.injEq] at h
      obtain ⟨hk, hrest⟩ := h
      have h1 : l.step_type = r.step_type := congrArg (fun p => p.1) hk
      have h2 : l.name = r.name := congrArg (fun p => p.2.1) hk
      have h3 : l.input = r.input := congrArg (fun p => p.2.2.1) hk
      have h4 : l.output = r.output := congrArg (fun p => p.2.2.2) hk
      intro st
      have hp : diffPair st (some l, some r) = st := by
        simp [diffPair, h1, h2, h3, h4]
      have hz : zipPad (l :: ls) (r :: rs) = (some l, some r) :: zipPad ls rs := by
        simp [zipPad]
      rw [hz, List.foldl_cons, hp]
      exact ih rs hrest st

/-- Claim C4: whenever the two traces' persisted step lists agree byte-for-
byte on the compared columns (`step_type`, `name`, `input`, `output`) —
in particular for `diffTraces` of a trace against itself — the diff result
has `divergence_step = null` and an empty diff list. -/
theorem diffTraces_equal_text_empty :
    (∀ (db : DB) (lid rid : Nat),
      (traceSteps db lid).map stepCmpKey = (traceSteps db rid).map stepCmpKey →
      (diffTraces db lid rid).divergence_step = none ∧
      (diffTraces db lid rid).diffs = []) ∧
    (∀ (db : DB) (tid : Nat),
      (diffTraces db tid tid).divergence_step = none ∧
      (diffTraces db tid tid).diffs = []) := by
  have main : ∀ (db : DB) (lid rid : Nat),
      (traceSteps db lid).map stepCmpKey = (traceSteps db rid).map stepCmpKey →
      (diffTraces db lid rid).divergence_step = none ∧
      (diffTraces db lid rid).diffs = [] := by
    intro db lid rid h
    have hfold := diffFold_id_of_cmpKeys (traceSteps db lid) (traceSteps db rid) h (none, [])
    constructor
    · show ((zipPad (traceSteps db lid) (traceSteps db rid)).foldl diffPair
        ((none : Option Nat), ([] : List StepDiff))).1 = none
      rw [hfold]
    · show ((zipPad (traceSteps db lid) (traceSteps db rid)).foldl diffPair
        ((none : Option Nat), ([] : List StepDiff))).2 = []
      rw [hfold]
  exact ⟨main, fun db tid => main db tid tid rfl⟩

/-- Witness for `diffTraces_equal_text_empty`: two content-identical traces
ingested into the same store diff to no divergence and no diffs. -/
theorem diffTraces_equal_text_empty_witness :
    (diffTraces exDb3 0 5).divergence_step = none ∧
    (diffTraces exDb3 0 5).diffs = [] :=
  (diffTraces_equal_text_empty).1 exDb3 0 5 (by decide)

/-- Scores in [0, 1] and weights ≥ 0 keep the weighted mean inside [0, 1];
with zero total weight the mean is 0. -/
theorem weightedOverall_bounds (rs : List CriterionResult)
    (hs : ∀ r ∈ rs, 0 ≤ r.score ∧ r.score ≤ 1) (hw : ∀ r ∈ rs, 0 ≤ r.weight) :
    0 ≤ weightedOverall rs ∧ weightedOverall rs ≤ 1 := by
  have hsum : ∀ (a b : Rat), 0 ≤ a → a ≤ b →
      (∀ r ∈ rs, 0 ≤ r.score ∧ r.score ≤ 1) → (∀ r ∈ rs, 0 ≤ r.weight) →
      0 ≤ rs.foldl (fun acc r => acc + r.score * r.weight) a ∧
      rs.foldl (fun acc r => acc + r.score * r.weight) a ≤
        rs.foldl (fun acc r => acc + r.weight) b := by
    clear hs hw
    induction rs with
    | nil => intro a b ha hab _ _; exact ⟨ha, hab⟩
    | cons r rs ih =>
      intro a b ha hab hs hw
      have hr := hs r (List.mem_cons_self r rs)
      have hwr := hw r (List.mem_cons_self r rs)
      have hterm0 : 0 ≤ r.score * r.weight := mul_nonneg hr.1 hwr
      have hterm1 : r.score * r.weight ≤ r.weight := by
        calc r.score * r.weight ≤ 1 * r.weight :=
              mul_le_mul_of_nonneg_right hr.2 hwr
          _ = r.weight := one_mul _
      simp only [List.foldl_cons]
      exact ih (a + r.score * r.weight) (b + r.weight)
        (by linarith) (by linarith)
        (fun x hx => hs x (List.mem_cons_of_mem r hx))
        (fun x hx => hw x (List.mem_cons_of_mem r hx))

  have h := hsum 0 0 le_rfl le_rfl hs hw
  unfold weightedOverall
  by_cases hgt : rs.foldl (fun acc r => acc + r.weight) 0 > 0
  · rw [if_pos hgt]
    constructor
    · exact div_nonneg h.1 (le_of_lt hgt)
    · rw [div_le_one hgt]
      exact h.2
  · rw [if_neg hgt]
    norm_num

/-- Three-decimal rounding keeps [0, 1] inside [0, 1]. -/
theorem round3_bounds (x : Rat) (h0 : 0 ≤ x) (h1 : x ≤ 1) :
    0 ≤ round3 x ∧ round3 x ≤ 1 := by
  unfold round3 jsRound
  constructor
  · apply div_nonneg _ (by norm_num)
    have : (0 : ℤ) ≤ ⌊x * 1000 + 1/2⌋ := by
      apply Int.le_floor.mpr
      push_cast
      nlinarith
    exact_mod_cast this
  · rw [div_le_one (by norm_num)]
    have : ⌊x * 1000 + 1/2⌋ ≤ (1000 : ℤ) := by
      have hlt : x * 1000 + 1/2 < (1001 : ℤ) := by
        push_cast
        nlinarith
      have := Int.floor_lt.mpr hlt
      omega
    exact_mod_cast this

/-- Scores of custom-rubric criteria are 0 or 1, hence in [0, 1]. -/
theorem customCriterionResult_score_mem (compile : String → Option (String → Bool))
    (fullText : String) (c : RubricCriterion) :
    0 ≤ (customCriterionResult compile fullText c).score ∧
    (customCriterionResult compile fullText c).score ≤ 1 ∧
    (customCriterionResult compile fullText c).weight = c.weight.getD 1 := by
  unfold customCriterionResult
  cases compile c.pattern with
  | none => norm_num
  | some test =>
    by_cases h : test fullText = c.expected <;> simp [h]

/-- Claim C2 (amended): a rubric verdict stores score = weighted mean rounded
to three decimals (0 when `Σ weight = 0`) with `0 ≤ score ≤ 1`, but `passed`
compares the UNROUNDED weighted mean against the threshold, which can
disagree with `score ≥ threshold` when the rounding crosses the threshold
(see the counterexample).  First conjunct: the storage path shared by
`runEval` and `runCustomRubric`; second conjunct: `runCustomRubric`. -/
theorem rubric_verdict_scoring :
    (∀ (db : DB) (traceId : Nat) (ty nm : String) (threshold : Rat)
        (rs : List CriterionResult) (now : String),
      (∀ r ∈ rs, 0 ≤ r.score ∧ r.score ≤ 1) → (∀ r ∈ rs, 0 ≤ r.weight) →
      ((storeRubricVerdict db traceId ty nm threshold rs now).2.score
          = round3 (weightedOverall rs) ∧
        (totalWeight rs = 0 → weightedOverall rs = 0) ∧
        0 ≤ (storeRubricVerdict db traceId ty nm threshold rs now).2.score ∧
        (storeRubricVerdict db traceId ty nm threshold rs now).2.score ≤ 1 ∧
        (storeRubricVerdict db traceId ty nm threshold rs now).2.passed
          = decide (weightedOverall rs ≥ threshold))) ∧
    (∀ (db : DB) (traceId : Nat) (compile : String → Option (String → Bool))
        (fullText rubricName : String) (threshold : Option Rat)
        (criteria : List RubricCriterion) (now : String) (db' : DB) (row : EvalRow),
      (∀ c ∈ criteria, 0 ≤ c.weight.getD 1) →
      runCustomRubric db traceId compile fullText rubricName threshold criteria now
        = .ok (db', row) →
      (row.score
          = round3 (weightedOverall (criteria.map (customCriterionResult compile fullText))) ∧
        0 ≤ row.score ∧ row.score ≤ 1 ∧
        row.passed
          = decide (weightedOverall (criteria.map (customCriterionResult compile fullText))
              ≥ threshold.getD (7/10)))) := by
  have store : ∀ (db : DB) (traceId : Nat) (ty nm : String) (threshold : Rat)
      (rs : List CriterionResult) (now : String),
      (∀ r ∈ rs, 0 ≤ r.score ∧ r.score ≤ 1) → (∀ r ∈ rs, 0 ≤ r.weight) →
      ((storeRubricVerdict db traceId ty nm threshold rs now).2.score
          = round3 (weightedOverall rs) ∧
        (totalWeight rs = 0 → weightedOverall rs = 0) ∧
        0 ≤ (storeRubricVerdict db traceId ty nm threshold rs now).2.score ∧
        (storeRubricVerdict db traceId ty nm threshold rs now).2.score ≤ 1 ∧
        (storeRubricVerdict db traceId ty nm threshold rs now).2.passed
          = decide (weightedOverall rs ≥ threshold)) := by
    intro db traceId ty nm threshold rs now hs hw
    have hov := weightedOverall_bounds rs hs hw
    have hr3 := round3_bounds (weightedOverall rs) hov.1 hov.2
    refine ⟨rfl, ?_, hr3.1, hr3.2, rfl⟩
    intro hzero
    unfold weightedOverall
    rw [if_neg]
    show ¬ totalWeight rs > 0
    rw [hzero]
    norm_num
  refine ⟨store, ?_⟩
  intro db traceId compile fullText rubricName threshold criteria now db' row hwts hok
  unfold runCustomRubric at hok
  cases hfind : findTrace? db traceId with
  | none => rw [hfind] at hok; cases hok
  | some tr =>
    rw [hfind] at hok
    have hrow : row = (storeRubricVerdict db traceId ("rubric") rubricName
        (threshold.getD (7/10))
        (criteria.map (customCriterionResult compile fullText)) now).2 := by
      cases hok
      rfl
    have hs : ∀ r ∈ criteria.map (customCriterionResult compile fullText),
        0 ≤ r.score ∧ r.score ≤ 1 := by
      intro r hr
      obtain ⟨c, _, rfl⟩ := List.mem_map.mp hr
      have h := customCriterionResult_score_mem compile fullText c
      exact ⟨h.1, h.2.1⟩
    have hw : ∀ r ∈ criteria.map (customCriterionResult compile fullText),
        0 ≤ r.weight := by
      intro r hr
      obtain ⟨c, hc, rfl⟩ := List.mem_map.mp hr
      rw [(customCriterionResult_score_mem compile fullText c).2.2]
      exact hwts c hc
    have h := store db traceId ("rubric") rubricName (threshold.getD (7/10))
      (criteria.map (customCriterionResult compile fullText)) now hs hw
    rw [hrow]
    exact ⟨h.1, h.2.2.1, h.2.2.2.1, h.2.2.2.2⟩

/-- Witness for `rubric_verdict_scoring` at the concrete counterexample
rubric: the stored score lies in [0, 1]. -/
theorem rubric_verdict_scoring_witness :
    0 ≤ (storeRubricVerdict exDb1 0 ("rubric") ("custom") (7/10)
          (c2Criteria.map (customCriterionResult c2Compile ("t"))) ("T")).2.score ∧
    (storeRubricVerdict exDb1 0 ("rubric") ("custom") (7/10)
          (c2Criteria.map (customCriterionResult c2Compile ("t"))) ("T")).2.score ≤ 1 := by
  have h := (rubric_verdict_scoring).1 exDb1 0 ("rubric") ("custom") (7/10)
    (c2Criteria.map (customCriterionResult c2Compile ("t"))) ("T")
    (by decide) (by decide)
  exact ⟨h.2.2.1, h.2.2.2.1⟩

/-- Counterexample to claim C2 as stated: `runCustomRubric` over an existing
trace writes a verdict with (rounded) score 0.7 ≥ threshold 0.7 while
`passed` is false, because `passed` is computed from the unrounded weighted
mean 0.6999 < 0.7 — contradicting `V.passed = (V.score ≥ threshold)`. -/
theorem rubric_passed_from_unrounded_counterexample :
    (c2Run.toOption.map (fun p => (p.2.score, p.2.passed))) = some (7/10, false) ∧
    ((7/10 : Rat) ≥ 7/10) := by
  have hbxx : (("x" : String) == "x") = true := by decide
  have hbyx : (("y" : String) == "x") = false := by decide
  have hov : weightedOverall (c2Criteria.map (customCriterionResult c2Compile ("t")))
      = 6999/10000 := by
    simp only [c2Criteria, List.map_cons, List.map_nil, customCriterionResult, c2Compile,
      hbxx, hbyx, Option.getD_some]
    norm_num [weightedOverall]
  have hfloor : ⌊(6999/10000 : Rat) * 1000 + 1/2⌋ = (700 : ℤ) := by
    rw [Int.floor_eq_iff]
    constructor <;> norm_num
  have hr3 : round3 (6999/10000) = 7/10 := by
    unfold round3 jsRound
    rw [hfloor]
    norm_num
  have hpass : decide ((6999/10000 : Rat) ≥ 7/10) = false :=
    decide_eq_false (by norm_num)
  have hfind : findTrace? exDb1 0 = some ((ingestTrace emptyDB exTraceInput ("T")).2) := rfl
  have hrun : c2Run = .ok (storeRubricVerdict exDb1 0 ("rubric") ("custom") (7/10)
      (c2Criteria.map (customCriterionResult c2Compile ("t"))) ("T")) := by
    unfold c2Run runCustomRubric
    rw [hfind]
    rfl
  rw [hrun]
  refine ⟨?_, by norm_num⟩
  simp only [Except.toOption, Option.map, storeRubricVerdict, createEval, rubricVerdict]
  rw [hov, hr3, hpass]

/-- Claim C6: a match pattern containing none of the keys `step_type`,
`name_contains`, `name_regex`, `input_contains`, `output_contains` matches
no step; a present `name_regex` that fails to compile likewise yields no
match without raising; and a returned match reason is the comma-joined
description of the keys that matched. -/
theorem matchesPolicy_keys_and_reason :
    (∀ (compile : String → Option (String → Bool)) (step : StepRow) (pat : MatchPattern),
      pat.step_type = none → pat.name_contains = none → pat.name_regex = none →
      pat.input_contains = none → pat.output_contains = none →
      matchesPolicy compile step pat = none) ∧
    (∀ (compile : String → Option (String → Bool)) (step : StepRow) (pat : MatchPattern)
        (rx : String),
      jsTruthy pat.name_regex = some rx → compile rx = none →
      matchesPolicy compile step pat = none) ∧
    (∀ (compile : String → Option (String → Bool)) (step : StepRow) (pat : MatchPattern)
        (reason : String),
      matchesPolicy compile step pat = some reason →
      reason = String.intercalate (", ") (matchedDescriptions compile step pat)) := by
  refine ⟨?_, ?_, ?_⟩
  · intro compile step pat h1 h2 h3 h4 h5
    simp [matchesPolicy, stepTypeCheck, nameContainsCheck, nameRegexCheck,
      inputContainsCheck, outputContainsCheck, h1, h2, h3, h4, h5, jsTruthy]
  · intro compile step pat rx hrx hc
    have h3 : nameRegexCheck compile step pat = none := by
      simp [nameRegexCheck, hrx, hc]
    unfold matchesPolicy
    cases h1 : stepTypeCheck step pat with
    | none => rfl
    | some r1 =>
      cases h2 : nameContainsCheck step pat with
      | none => rfl
      | some r2 => simp [h3]
  · intro compile step pat reason h
    unfold matchesPolicy at h
    rcases h1 : stepTypeCheck step pat with _ | r1
    · simp [h1] at h
    simp only [h1] at h
    rcases h2 : nameContainsCheck step pat with _ | r2
    · simp [h2] at h
    simp only [h2] at h
    rcases h3 : nameRegexCheck compile step pat with _ | r3
    · simp [h3] at h
    simp only [h3] at h
    rcases h4 : inputContainsCheck step pat with _ | r4
    · simp [h4] at h
    simp only [h4] at h
    rcases h5 : outputContainsCheck step pat with _ | r5
    · simp [h5] at h
    simp only [h5] at h
    unfold matchedDescriptions
    rw [h1, h2, h3, h4, h5]
    by_cases he : (r1 ++ r2 ++ r3 ++ r4 ++ r5).isEmpty
    · rw [if_pos he] at h
      cases h
    · rw [if_neg he] at h
      cases h
      simp [Option.getD]

/-- Witness for `matchesPolicy_keys_and_reason`: the empty pattern and an
invalid-regex pattern match nothing on a concrete step; a matching
`step_type` pattern yields the joined description. -/
theorem matchesPolicy_keys_and_reason_witness :
    matchesPolicy c6NoCompile c6Step c6EmptyPat = none ∧
    matchesPolicy c6NoCompile c6Step c6RegexPat = none ∧
    ("step_type=tool_call"
      = String.intercalate (", ") (matchedDescriptions c6NoCompile c6Step c6TypePat)) :=
  ⟨(matchesPolicy_keys_and_reason).1 c6NoCompile c6Step c6EmptyPat rfl rfl rfl rfl rfl,
   (matchesPolicy_keys_and_reason).2.1 c6NoCompile c6Step c6RegexPat ("[") (by decide) rfl,
   (matchesPolicy_keys_and_reason).2.2 c6NoCompile c6Step c6TypePat ("step_type=tool_call")
     (by decide)⟩

/-- Claim C8: `extractJson` returns the value of the first succeeding stage —
(1) direct parse of the trimmed input, (2) else the parsed trimmed content
of a fenced block, (3) else the parsed slice from the first opening brace to
the last closing brace — and throws a parse failure exactly when all three
stages fail. -/
theorem extractJson_stage_order {J : Type} (parse : String → Option J)
    (fence : String → Option String) (text : String) :
    extractJson parse fence text =
      match (parse text.trim).orElse (fun _ =>
              ((fence text).bind (fun inner => parse inner.trim)).orElse (fun _ =>
                braceSliceParse parse text)) with
      | some v => .ok v
      | none => .error .parse := by
  have hb : extractJsonBraces parse text =
      (match braceSliceParse parse text with
       | some v => Except.ok v
       | none => Except.error ApError.parse) := by
    unfold extractJsonBraces braceSliceParse
    rcases idxOfChar text openBrace with _ | b <;>
      rcases lastIdxOfChar text closeBrace with _ | e <;> simp
    by_cases hlt : b < e
    · rw [if_pos hlt, if_pos hlt]
    · rw [if_neg hlt, if_neg hlt]
  unfold extractJson
  cases h1 : parse text.trim with
  | some v => simp [h1, Option.some_orElse']
  | none =>
    cases h2 : fence text with
    | none =>
      simp only [h1, h2, Option.none_bind', Option.none_orElse']
      exact hb
    | some inner =>
      cases h3 : parse inner.trim with
      | some v2 => simp [h1, h2, h3, Option.some_bind', Option.some_orElse', Option.none_orElse']
      | none =>
        simp only [h1, h2, h3, Option.some_bind', Option.none_orElse']
        exact hb

/-- Claim C7: for every judge preset that declares an applicability predicate
and every existing trace the predicate rejects, `runAiEval` writes and
returns a verdict with evaluator type `llm_judge`, score 1.0, passed true
and the skipped details, and never consults the judge — the result is
identical under every judge function. -/
theorem runAiEval_skip_not_applicable (db : DB) (traceId : Nat) (preset : AiEvalPreset)
    (summaryText : String) (judge : String → String → LlmResponse) (now : String)
    (app : EvalContext → Bool) (ctx : EvalContext)
    (hctx : getTraceCtx db traceId = some ctx)
    (happ : preset.applicable = some app) (hfalse : app ctx = false) :
    (∃ db' row, runAiEval db traceId preset summaryText judge now = .ok (db', row) ∧
      row.evaluator_type = "llm_judge" ∧ row.evaluator_name = preset.name ∧
      row.score = 1 ∧ row.passed = true ∧ row.details = skipDetailsText ∧
      db'.evals = db.evals ++ [row]) ∧
    (∀ judge2 : String → String → LlmResponse,
      runAiEval db traceId preset summaryText judge now
        = runAiEval db traceId preset summaryText judge2 now) := by
  have hskip : ∀ judgeF : String → String → LlmResponse,
      runAiEval db traceId preset summaryText judgeF now =
        .ok (createEval db traceId
          { evaluator_type := "llm_judge", evaluator_name := preset.name,
            score := 1, passed := true, details := some skipDetailsText } now) := by
    intro judgeF
    unfold runAiEval
    rw [hctx]
    simp [happ, hfalse]
  exact ⟨⟨_, _, hskip judge, rfl, rfl, rfl, rfl, rfl, rfl⟩,
         fun judge2 => by rw [hskip judge, hskip judge2]⟩

/-- Witness for `runAiEval_skip_not_applicable` at a concrete errorless
trace and the `ai-root-cause` applicability predicate. -/
theorem runAiEval_skip_not_applicable_witness :
    ∃ db' row, runAiEval exDb1 0 c7Preset ("summary") c7Judge ("T") = .ok (db', row) ∧
      row.evaluator_type = "llm_judge" ∧ row.evaluator_name = c7Preset.name ∧
      row.score = 1 ∧ row.passed = true ∧ row.details = skipDetailsText ∧
      db'.evals = exDb1.evals ++ [row] :=
  (runAiEval_skip_not_applicable exDb1 0 c7Preset ("summary") c7Judge ("T")
    aiRootCauseApplicable c7Ctx rfl rfl (by decide)).1

/-- A store predicate preserved by each fold step is preserved by the fold. -/
theorem foldl_preserves {α : Type} (P : DB → Prop) (f : DB → α → DB)
    (hf : ∀ db a, P db → P (f db a)) :
    ∀ (l : List α) (db : DB), P db → P (l.foldl f db) := by
  intro l
  induction l with
  | nil => intro db h; exact h
  | cons a as ih =>
    intro db h
    rw [List.foldl_cons]
    exact ih (f db a) (hf db a h)

/-- Appending a fresh element keeps a list without duplicates. -/
theorem nodup_append_singleton {l : List Nat} {a : Nat} (h : l.Nodup) (ha : a ∉ l) :
    (l ++ [a]).Nodup := by
  rw [List.nodup_append]
  refine ⟨h, List.nodup_singleton a, ?_⟩
  intro x hx hy
  rw [List.mem_singleton] at hy
  subst hy
  exact ha hx

/-- One ingest-loop iteration preserves well-formedness. -/
theorem WF_insertIngestStep (traceId : Nat) (now : String) (db : DB)
    (st : IngestStepInput) (h : WF db) : WF (insertIngestStep traceId now db st) := by
  unfold insertIngestStep genId
  cases hsnap : st.snapshot with
  | none =>
    dsimp only
    refine ⟨?_, ?_, h.snaps_nodup⟩
    · intro s hs
      rcases List.mem_append.mp hs with hs | hs
      · exact Nat.lt_succ_of_lt (h.steps_lt s hs)
      · rw [List.mem_singleton] at hs
        subst hs
        exact Nat.lt_succ_self _
    · intro sn hsn
      exact Nat.lt_succ_of_lt (h.snaps_lt sn hsn)
  | some s =>
    dsimp only
    refine ⟨?_, ?_, ?_⟩
    · intro x hx
      rcases List.mem_append.mp hx with hx | hx
      · show x.id < db.counter + 1 + 1
        have := h.steps_lt x hx
        omega
      · rw [List.mem_singleton] at hx
        subst hx
        show db.counter < db.counter + 1 + 1
        omega
    · intro sn hsn
      rcases List.mem_append.mp hsn with hsn | hsn
      · show sn.step_id < db.counter + 1 + 1
        have := h.snaps_lt sn hsn
        omega
      · rw [List.mem_singleton] at hsn
        subst hsn
        show db.counter < db.counter + 1 + 1
        omega
    · rw [List.map_append]
      apply nodup_append_singleton h.snaps_nodup
      intro hmem
      rw [List.mem_map] at hmem
      obtain ⟨sn, hsn, hid⟩ := hmem
      have hlt := h.snaps_lt sn hsn
      have hid' : sn.step_id = db.counter := hid
      omega

/-- `ingestTrace` preserves well-formedness. -/
theorem WF_ingestTrace (db : DB) (inp : IngestTraceInput) (now : String)
    (h : WF db) : WF (ingestTrace db inp now).1 := by
  unfold ingestTrace genId
  exact foldl_preserves WF _ (WF_insertIngestStep db.counter now) inp.steps _
    ⟨fun s hs => Nat.lt_succ_of_lt (h.steps_lt s hs),
     fun sn hsn => Nat.lt_succ_of_lt (h.snaps_lt sn hsn),
     h.snaps_nodup⟩

/-- A successful `appendStep` writes exactly what one ingest-loop iteration
writes (the code paths share the insert statements verbatim). -/
theorem appendStep_ok_shape (db db' : DB) (traceId : Nat) (inp : IngestStepInput)
    (now : String) (row : StepRow)
    (hok : appendStep db traceId inp now = .ok (db', row)) :
    db' = insertIngestStep traceId now db inp := by
  unfold appendStep at hok
  cases hfind : findTrace? db traceId with
  | none =>
    rw [hfind] at hok
    cases hok
  | some tr =>
    rw [hfind] at hok
    dsimp only at hok
    split at hok
    · cases hok
    · unfold insertIngestStep genId
      cases hsnap : inp.snapshot with
      | none =>
        simp only [hsnap] at hok ⊢
        injection hok with hpair
        injection hpair with h1 h2
        exact h1.symm
      | some s =>
        simp only [hsnap] at hok ⊢
        injection hok with hpair
        injection hpair with h1 h2
        exact h1.symm

/-- A successful `appendStep` preserves well-formedness. -/
theorem WF_appendStep (db db' : DB) (traceId : Nat) (inp : IngestStepInput)
    (now : String) (row : StepRow) (h : WF db)
    (hok : appendStep db traceId inp now = .ok (db', row)) : WF db' := by
  rw [appendStep_ok_shape db db' traceId inp now row hok]
  exact WF_insertIngestStep traceId now db inp h

/-- One fork-copy iteration preserves well-formedness. -/
theorem WF_forkCopyStep (fid : Nat) (mc : Option String) (db : DB) (s : StepRow)
    (h : WF db) : WF (forkCopyStep fid mc db s) := by
  unfold forkCopyStep genId
  dsimp only
  split
  · refine ⟨?_, ?_, h.snaps_nodup⟩
    · intro x hx
      rcases List.mem_append.mp hx with hx | hx
      · exact Nat.lt_succ_of_lt (h.steps_lt x hx)
      · rw [List.mem_singleton] at hx
        subst hx
        exact Nat.lt_succ_self _
    · intro sn hsn
      exact Nat.lt_succ_of_lt (h.snaps_lt sn hsn)
  · refine ⟨?_, ?_, ?_⟩
    · intro x hx
      rcases List.mem_append.mp hx with hx | hx
      · show x.id < db.counter + 1 + 1
        have := h.steps_lt x hx
        omega
      · rw [List.mem_singleton] at hx
        subst hx
        show db.counter < db.counter + 1 + 1
        omega
    · intro sn hsn
      rcases List.mem_append.mp hsn with hsn | hsn
      · show sn.step_id < db.counter + 1 + 1
        have := h.snaps_lt sn hsn
        omega
      · rw [List.mem_singleton] at hsn
        subst hsn
        show db.counter < db.counter + 1 + 1
        omega
    · rw [List.map_append]
      apply nodup_append_singleton h.snaps_nodup
      intro hmem
      rw [List.mem_map] at hmem
      obtain ⟨sn, hsn, hid⟩ := hmem
      have hlt := h.snaps_lt sn hsn
      have hid' : sn.step_id = db.counter := hid
      omega

/-- Shape of a successful fork: the stored trace row, the result record, and
the copy fold over the parent's prefix. -/
theorem forkTrace_ok_shape (db db' : DB) (traceId fromStep : Nat)
    (mi mc : Option String) (now : String) (res : ForkResult)
    (hok : forkTrace db traceId fromStep mi mc now = .ok (db', res)) :
    ∃ original, findTrace? db traceId = some original ∧
      res = { original_trace_id := traceId, forked_trace_id := db.counter,
              forked_from_step := fromStep,
              steps_copied := (stepsUpTo db traceId fromStep).length } ∧
      db' = (stepsUpTo db traceId fromStep).foldl (forkCopyStep db.counter mc)
              { db with
                counter := db.counter + 1
                traces := db.traces ++
                  [mkForkedTrace db.counter traceId fromStep mi original now] } := by
  unfold forkTrace at hok
  split at hok
  · cases hok
  · cases hfind : findTrace? db traceId with
    | none =>
      rw [hfind] at hok
      cases hok
    | some original =>
      rw [hfind] at hok
      dsimp only at hok
      cases hmax : maxStepNumber db traceId with
      | none =>
        rw [hmax] at hok
        cases hok
      | some maxStep =>
        rw [hmax] at hok
        dsimp only at hok
        split at hok
        · cases hok
        · injection hok with hpair
          injection hpair with h1 h2
          exact ⟨original, rfl, h2.symm, h1.symm⟩

/-- A successful `forkTrace` preserves well-formedness. -/
theorem WF_forkTrace (db db' : DB) (traceId fromStep : Nat) (mi mc : Option String)
    (now : String) (res : ForkResult) (h : WF db)
    (hok : forkTrace db traceId fromStep mi mc now = .ok (db', res)) : WF db' := by
  obtain ⟨original, _, _, hdb⟩ := forkTrace_ok_shape db db' traceId fromStep mi mc now res hok
  rw [hdb]
  exact foldl_preserves WF _ (WF_forkCopyStep db.counter mc) _ _
    ⟨fun s hs => Nat.lt_succ_of_lt (h.steps_lt s hs),
     fun sn hsn => Nat.lt_succ_of_lt (h.snaps_lt sn hsn),
     h.snaps_nodup⟩

/-- Every reachable store is well-formed. -/
theorem Reachable_WF (db : DB) (h : Reachable db) : WF db := by
  induction h with
  | init => refine ⟨?_, ?_, ?_⟩ <;> simp [emptyDB]
  | ingest db inp now _ ih => exact WF_ingestTrace db inp now ih
  | append db db' traceId inp now row _ hok ih =>
    exact WF_appendStep db db' traceId inp now row ih hok
  | fork db db' traceId fromStep mi mc now res _ hok ih =>
    exact WF_forkTrace db db' traceId fromStep mi mc now res ih hok

/-- Claim C5: in every store reachable through `ingestTrace`, `appendStep`
and `forkTrace`, no two snapshot rows share an owning step id — each step
owns at most one snapshot, even though the snapshot table carries no UNIQUE
constraint on `step_id` (each operation mints fresh step ids and inserts at
most one snapshot per step it creates). -/
theorem snapshot_per_step_unique (db : DB) (h : Reachable db) :
    (db.snapshots.map (fun sn => sn.step_id)).Nodup :=
  (Reachable_WF db h).snaps_nodup

/-- Witness for `snapshot_per_step_unique`: the store with one ingested
two-snapshot trace is reachable and satisfies the uniqueness. -/
theorem snapshot_per_step_unique_witness :
    (exDb2.snapshots.map (fun sn => sn.step_id)).Nodup :=
  snapshot_per_step_unique exDb2
    (Reachable.ingest emptyDB exTraceInputSteps ("T") Reachable.init)

/-- One ingest-loop iteration leaves the trace table unchanged. -/
theorem insertIngestStep_traces (traceId : Nat) (now : String) (db : DB)
    (st : IngestStepInput) :
    (insertIngestStep traceId now db st).traces = db.traces := by
  unfold insertIngestStep genId
  dsimp only
  split <;> rfl

/-- A fold whose step keeps the trace table fixed keeps it fixed. -/
theorem foldl_traces_eq {α : Type} (f : DB → α → DB)
    (hf : ∀ db a, (f db a).traces = db.traces) :
    ∀ (l : List α) (db : DB), (l.foldl f db).traces = db.traces := by
  intro l
  induction l with
  | nil => intro db; rfl
  | cons a as ih =>
    intro db
    rw [List.foldl_cons, ih, hf]

/-- One fork-copy iteration leaves the trace table unchanged. -/
theorem forkCopyStep_traces (fid : Nat) (mc : Option String) (db : DB) (s : StepRow) :
    (forkCopyStep fid mc db s).traces = db.traces := by
  unfold forkCopyStep genId
  dsimp only
  split <;> rfl

/-- `ingestTrace` appends exactly the returned trace row to the trace table. -/
theorem ingestTrace_traces (db : DB) (inp : IngestTraceInput) (now : String) :
    (ingestTrace db inp now).1.traces = db.traces ++ [(ingestTrace db inp now).2] := by
  unfold ingestTrace genId
  dsimp only
  rw [foldl_traces_eq _ (fun d a => insertIngestStep_traces db.counter now d a)]

/-- Claim C9: `ingestTrace` always stores NULL fork linkage (its input type
carries no linkage fields and the insert hard-codes NULL for both columns);
`forkTrace` stores the forked trace with both linkage fields set; and in
every store reachable through the three operations, each trace row has the
two fields either both NULL or both set. -/
theorem fork_linkage_invariant :
    (∀ (db : DB) (inp : IngestTraceInput) (now : String),
      (ingestTrace db inp now).2.parent_trace_id = none ∧
      (ingestTrace db inp now).2.forked_from_step = none) ∧
    (∀ (db : DB) (traceId fromStep : Nat) (mi mc : Option String) (now : String)
        (db' : DB) (res : ForkResult),
      forkTrace db traceId fromStep mi mc now = .ok (db', res) →
      ∃ t ∈ db'.traces, t.id = res.forked_trace_id ∧
        t.parent_trace_id = some traceId ∧ t.forked_from_step = some fromStep) ∧
    (∀ db : DB, Reachable db → ∀ t ∈ db.traces,
      (t.parent_trace_id = none ∧ t.forked_from_step = none) ∨
      (t.parent_trace_id ≠ none ∧ t.forked_from_step ≠ none)) := by
  refine ⟨fun db inp now => ⟨rfl, rfl⟩, ?_, ?_⟩
  · intro db traceId fromStep mi mc now db' res hok
    obtain ⟨original, hfind, hres, hdb⟩ :=
      forkTrace_ok_shape db db' traceId fromStep mi mc now res hok
    refine ⟨mkForkedTrace db.counter traceId fromStep mi original now, ?_, ?_, rfl, rfl⟩
    · rw [hdb, foldl_traces_eq _ (fun d a => forkCopyStep_traces db.counter mc d a)]
      exact List.mem_append_right _ (List.mem_singleton_self _)
    · rw [hres]
      rfl
  · intro db hreach
    induction hreach with
    | init => intro t ht; simp [emptyDB] at ht
    | ingest db inp now _ ih =>
      intro t ht
      rw [ingestTrace_traces db inp now] at ht
      rcases List.mem_append.mp ht with ht | ht
      · exact ih t ht
      · rw [List.mem_singleton] at ht
        subst ht
        exact Or.inl ⟨rfl, rfl⟩
    | append db db' traceId inp now row _ hok ih =>
      intro t ht
      rw [appendStep_ok_shape db db' traceId inp now row hok,
        insertIngestStep_traces traceId now db inp] at ht
      exact ih t ht
    | fork db db' traceId fromStep mi mc now res _ hok ih =>
      intro t ht
      obtain ⟨original, hfind, hres, hdb⟩ :=
        forkTrace_ok_shape db db' traceId fromStep mi mc now res hok
      rw [hdb, foldl_traces_eq _ (fun d a => forkCopyStep_traces db.counter mc d a)] at ht
      rcases List.mem_append.mp ht with ht | ht
      · exact ih t ht
      · rw [List.mem_singleton] at ht
        subst ht
        exact Or.inr ⟨by simp [mkForkedTrace], by simp [mkForkedTrace]⟩

/-- Membership in an ordered insertion. -/
theorem mem_insertByStepNumber (x s : StepRow) (l : List StepRow) :
    x ∈ insertByStepNumber s l ↔ x = s ∨ x ∈ l := by
  induction l with
  | nil => simp [insertByStepNumber]
  | cons t ts ih =>
    unfold insertByStepNumber
    by_cases h : s.step_number ≤ t.step_number
    · rw [if_pos h]
      simp [List.mem_cons]
    · rw [if_neg h]
      simp only [List.mem_cons, ih]
      tauto

/-- Sorting by step number preserves membership. -/
theorem mem_sortSteps (x : StepRow) (l : List StepRow) :
    x ∈ l.foldr insertByStepNumber [] ↔ x ∈ l := by
  induction l with
  | nil => simp
  | cons s ss ih =>
    rw [List.foldr_cons, mem_insertByStepNumber]
    simp [ih]

/-- Membership in the copied-prefix query. -/
theorem mem_stepsUpTo (db : DB) (tid k : Nat) (x : StepRow) :
    x ∈ stepsUpTo db tid k ↔
      x ∈ db.steps ∧ x.trace_id = tid ∧ x.step_number ≤ k := by
  unfold stepsUpTo
  rw [mem_sortSteps, List.mem_filter]
  simp [Bool.and_eq_true, decide_eq_true_eq, and_assoc]

/-- A lookup by an old step id ignores snapshot rows whose owners were
minted later. -/
theorem find?_snapshots_append (db0 : DB) (ns : List SnapRow) (sid : Nat)
    (hsid : sid < db0.counter) (hns : ∀ sn ∈ ns, db0.counter ≤ sn.step_id) :
    (db0.snapshots ++ ns).find? (fun sn => sn.step_id = sid) =
      db0.snapshots.find? (fun sn => sn.step_id = sid) := by
  rw [List.find?_append]
  cases h : db0.snapshots.find? (fun sn => sn.step_id = sid) with
  | some sn => rfl
  | none =>
    show (ns.find? (fun sn => decide (sn.step_id = sid))) = none
    apply List.find?_eq_none.mpr
    intro sn hsn
    have := hns sn hsn
    simp only [decide_eq_true_eq]
    omega

/-- The fork-copy iteration never shrinks the mint counter. -/
theorem forkCopyStep_counter_le (fid : Nat) (mc : Option String) (db : DB) (s : StepRow) :
    db.counter ≤ (forkCopyStep fid mc db s).counter := by
  unfold forkCopyStep genId
  dsimp only
  split
  · exact Nat.le_succ _
  · show db.counter ≤ db.counter + 1 + 1
    omega

/-- Snapshot-table effect of one fork-copy iteration: unchanged when the
parent step owns no snapshot, else one appended copy with the substituted
environment and carried-over fields. -/
theorem forkCopyStep_snapshots (fid : Nat) (mc : Option String) (db : DB) (s : StepRow) :
    (findSnap db s.id = none ∧ (forkCopyStep fid mc db s).snapshots = db.snapshots) ∨
    (∃ snap, findSnap db s.id = some snap ∧
      (forkCopyStep fid mc db s).snapshots = db.snapshots ++
        [{ id := db.counter + 1, step_id := db.counter,
           context_window := snap.context_window,
           environment := mc.getD snap.environment,
           tool_state := snap.tool_state, token_count := snap.token_count }]) := by
  unfold forkCopyStep genId
  dsimp only
  split
  next heq => exact Or.inl ⟨heq, rfl⟩
  next snap heq => exact Or.inr ⟨snap, heq, rfl⟩

/-- Invariant of the fork copy fold: the snapshot table grows only by copies
whose environment was substituted and whose other fields carry over from a
parent snapshot of a copied step. -/
theorem forkCopy_foldl_snapshots (fid : Nat) (mc : Option String) (db0 : DB)
    (S : List StepRow) (hS : ∀ s ∈ S, s.id < db0.counter) :
    ∀ (steps : List StepRow) (db : DB), (∀ s ∈ steps, s ∈ S) →
      db0.counter ≤ db.counter →
      (∃ ns, db.snapshots = db0.snapshots ++ ns ∧
        ∀ sn' ∈ ns, db0.counter ≤ sn'.step_id ∧ CopiedSnapOK db0 S mc sn') →
      ∃ ns, (steps.foldl (forkCopyStep fid mc) db).snapshots = db0.snapshots ++ ns ∧
        ∀ sn' ∈ ns, db0.counter ≤ sn'.step_id ∧ CopiedSnapOK db0 S mc sn' := by
  intro steps
  induction steps with
  | nil => intro db _ _ hinv; exact hinv
  | cons s ss ih =>
    intro db hsub hcnt hinv
    rw [List.foldl_cons]
    obtain ⟨ns, hsnapeq, hprop⟩ := hinv
    have hsS : s ∈ S := hsub s (List.mem_cons_self s ss)
    have hsid : s.id < db0.counter := hS s hsS
    have hsub' : ∀ x ∈ ss, x ∈ S := fun x hx => hsub x (List.mem_cons_of_mem s hx)
    have hcnt' : db0.counter ≤ (forkCopyStep fid mc db s).counter :=
      le_trans hcnt (forkCopyStep_counter_le fid mc db s)
    have hfind : findSnap db s.id =
        db0.snapshots.find? (fun sn => sn.step_id = s.id) := by
      unfold findSnap
      rw [hsnapeq]
      exact find?_snapshots_append db0 ns s.id hsid (fun sn hsn => (hprop sn hsn).1)
    rcases forkCopyStep_snapshots fid mc db s with ⟨hnone, heq⟩ | ⟨snap, hsome, heq⟩
    · exact ih _ hsub' hcnt' ⟨ns, by rw [heq, hsnapeq], hprop⟩
    · apply ih _ hsub' hcnt'
      refine ⟨ns ++ [{ id := db.counter + 1, step_id := db.counter, context_window := snap.context_window, environment := mc.getD snap.environment, tool_state := snap.tool_state, token_count := snap.token_count }], ?_, ?_⟩
      · rw [heq, hsnapeq, List.append_assoc]
      · intro sn' hsn'
        rcases List.mem_append.mp hsn' with hsn' | hsn'
        · exact hprop sn' hsn'
        · rw [List.mem_singleton] at hsn'
          subst hsn'
          refine ⟨hcnt, ?_⟩
          have hfs : findSnap db0 s.id = some snap := by
            unfold findSnap
            rw [← hfind]
            exact hsome
          exact ⟨s, hsS, snap, hfs, rfl, rfl, rfl, rfl⟩

/-- Claim C1 (amended): when `modified_env` is supplied, `forkTrace`
substitutes it for the `environment` field on EVERY copied snapshot among
steps 1..k — not only the snapshot of the fork-point step — while context
window, tool state and token count carry over unchanged from the parent
snapshot of the corresponding step. -/
theorem forkTrace_env_substitution (db : DB) (traceId fromStep : Nat)
    (mi : Option String) (env : String) (now : String) (db' : DB) (res : ForkResult)
    (hwf : ∀ s ∈ db.steps, s.id < db.counter)
    (hok : forkTrace db traceId fromStep mi (some env) now = .ok (db', res)) :
    ∃ ns, db'.snapshots = db.snapshots ++ ns ∧
      ∀ sn' ∈ ns, sn'.environment = env ∧
        ∃ s ∈ db.steps, s.trace_id = traceId ∧ s.step_number ≤ fromStep ∧
          ∃ sn, findSnap db s.id = some sn ∧
            sn'.context_window = sn.context_window ∧
            sn'.tool_state = sn.tool_state ∧
            sn'.token_count = sn.token_count := by
  obtain ⟨original, hfind, hres, hdb⟩ :=
    forkTrace_ok_shape db db' traceId fromStep mi (some env) now res hok
  have hS : ∀ s ∈ stepsUpTo db traceId fromStep, s.id < db.counter + 1 := by
    intro s hs
    obtain ⟨hmem, _, _⟩ := (mem_stepsUpTo db traceId fromStep s).mp hs
    exact Nat.lt_succ_of_lt (hwf s hmem)
  obtain ⟨ns, hns, hprop⟩ :=
    forkCopy_foldl_snapshots db.counter (some env)
      { db with
        counter := db.counter + 1
        traces := db.traces ++ [mkForkedTrace db.counter traceId fromStep mi original now] }
      (stepsUpTo db traceId fromStep) hS (stepsUpTo db traceId fromStep) _
      (fun s hs => hs) le_rfl ⟨[], by simp, by simp⟩
  rw [hdb]
  refine ⟨ns, hns, ?_⟩
  intro sn' hsn'
  obtain ⟨hge, s, hsS, sn, hfindsn, henv, hcw, hts, htc⟩ := hprop sn' hsn'
  obtain ⟨hmem, htid, hnum⟩ := (mem_stepsUpTo db traceId fromStep s).mp hsS
  exact ⟨henv, s, hmem, htid, hnum, sn, hfindsn, hcw, hts, htc⟩

/-- Witness for `forkTrace_env_substitution` at the concrete fixture fork. -/
theorem forkTrace_env_substitution_witness :
    ∃ ns, c1ForkDb.snapshots = exDb2.snapshots ++ ns ∧
      ∀ sn' ∈ ns, sn'.environment = "E" ∧
        ∃ s ∈ exDb2.steps, s.trace_id = 0 ∧ s.step_number ≤ 2 ∧
          ∃ sn, findSnap exDb2 s.id = some sn ∧
            sn'.context_window = sn.context_window ∧
            sn'.tool_state = sn.tool_state ∧
            sn'.token_count = sn.token_count :=
  forkTrace_env_substitution exDb2 0 2 none ("E") ("T") c1ForkDb c1ForkRes
    (by decide) (by rfl)

/-- Counterexample to claim C1 as stated: forking the two-snapshot fixture
trace at step 2 with a modified environment also replaces the environment
on the snapshot of copied step 1 (a step with step_number < k), instead of
keeping the parent's environment there. -/
theorem forkTrace_env_counterexample :
    c1Run = .ok (c1ForkDb, c1ForkRes) ∧
    c1ForkRes.forked_trace_id = 5 ∧
    ((c1ForkDb.steps.filter (fun s => s.trace_id = 5 && s.step_number = 1)).map
      (fun s => (findSnap c1ForkDb s.id).map (fun sn => sn.environment)))
      = [some ("E")] ∧
    (findSnap exDb2 1).map (fun sn => sn.environment) = some ("\x7b\"e\":1\x7d") ∧
    ("E" : String) ≠ "\x7b\"e\":1\x7d" := by
  refine ⟨rfl, rfl, rfl, rfl, ?_⟩
  decide

/-- Witness for `fork_linkage_invariant`: the ingested fixture trace has NULL
linkage, the concrete fork stores both fields, and the fixture store
satisfies the invariant. -/
theorem fork_linkage_invariant_witness :
    ((ingestTrace emptyDB exTraceInputSteps ("T")).2.parent_trace_id = none ∧
     (ingestTrace emptyDB exTraceInputSteps ("T")).2.forked_from_step = none) ∧
    (∃ t ∈ c1ForkDb.traces, t.id = c1ForkRes.forked_trace_id ∧
      t.parent_trace_id = some 0 ∧ t.forked_from_step = some 2) ∧
    (∀ t ∈ exDb2.traces,
      (t.parent_trace_id = none ∧ t.forked_from_step = none) ∨
      (t.parent_trace_id ≠ none ∧ t.forked_from_step ≠ none)) :=
  ⟨(fork_linkage_invariant).1 emptyDB exTraceInputSteps ("T"),
   (fork_linkage_invariant).2.1 exDb2 0 2 none (some ("E")) ("T") c1ForkDb c1ForkRes
     (by rfl),
   (fork_linkage_invariant).2.2 exDb2
     (Reachable.ingest emptyDB exTraceInputSteps ("T") Reachable.init)⟩

/-- Witness for `estimateCost_unknown_model_zero` at a model string that has no
rate-table entry. -/
theorem estimateCost_unknown_model_zero_witness :
    estimateCost ("mystery-model-9") 5000 1024 = 0 ∧
    (estimateAiEvalCost 300 [("ai-root-cause"), ("ai-quality-review")] ("mystery-model-9")).1 = 0 := by
  have h := estimateCost_unknown_model_zero ("mystery-model-9") (by decide)
  exact ⟨h.1 5000 1024, (h.2 300 [("ai-root-cause"), ("ai-quality-review")]).2⟩

end AgentReplay
